import Mathlib

/-!
Verification development for the share-statistics engine in
`src/Statistics.cc` (classes `WorkerShares` and `StatsServer`).

Pure functions of the source are embedded as Lean functions; the mutable
state of `StatsServer` becomes an explicit `StatsServerState` record that
the operations transform.  The wall clock (`time(nullptr)`) is passed as an
explicit `now` parameter.  Machine integers are modelled as `Nat` (unsigned
fields) and `Int` (signed fields); none of the verified properties depends
on wrap-around behaviour.
-/

set_option maxRecDepth 8000

namespace BtcPool

/-- `STATS_SLIDING_WINDOW_SECONDS` from the source (900 seconds). -/
def STATS_SLIDING_WINDOW_SECONDS : Nat := 900

/-- Result kind of a share.  The source only distinguishes
`Share::Result::ACCEPT` from everything else. -/
inductive ShareResult where
  | ACCEPT
  | REJECT
deriving DecidableEq

/-- The `Share` input record (the fields the statistics engine reads):
`timestamp_` (uint32), `userId_` (int32), `workerHashId_` (int64),
`ip_` (uint32), `share_` (uint64), `result_`. -/
structure Share where
  timestamp : Nat
  userId : Int
  workerHashId : Int
  ip : Nat
  share : Nat
  result : ShareResult
deriving DecidableEq

/-- Modelled from the spec: the sliding-window accumulator type
(`StatsWindow`, declared in the missing header `Statistics.h`): a ring of
`windowSize` buckets indexed by `t mod windowSize`, each bucket storing
`(lastTime, sum)`. -/
structure StatsWindow where
  windowSize : Nat
  buckets : Nat → Int × Nat

/-- Modelled from the spec: a freshly constructed window has all buckets
zeroed. -/
def StatsWindow.mkWindow (W : Nat) : StatsWindow :=
  ⟨W, fun _ => (0, 0)⟩

/-- Ring index of time `t`: `t mod windowSize`. -/
def StatsWindow.slot (w : StatsWindow) (t : Int) : Nat :=
  (t % (w.windowSize : Int)).toNat

/-- Modelled from the spec: `insert(t, v)`.  If the bucket at `t mod W` has
`lastTime == t`, add `v` to its sum; else overwrite the bucket with
`(t, v)`. -/
def StatsWindow.insert (w : StatsWindow) (t : Int) (v : Nat) : StatsWindow :=
  let s := w.slot t
  if (w.buckets s).1 = t then
    { w with buckets := Function.update w.buckets s (t, (w.buckets s).2 + v) }
  else
    { w with buckets := Function.update w.buckets s (t, v) }

/-- Contribution of the bucket holding time `i` to a query over the
half-open interval `(lo, hi]`: the stored sum if the stored `lastTime`
falls inside the interval, `0` otherwise. -/
def StatsWindow.contrib (w : StatsWindow) (lo hi i : Int) : Nat :=
  if lo < (w.buckets (w.slot i)).1 ∧ (w.buckets (w.slot i)).1 ≤ hi then
    (w.buckets (w.slot i)).2
  else 0

/-- Modelled from the spec: `sum(now, k)` iterates over the `k` time points
`now-k+1 … now`, skipping buckets whose stored `lastTime` is outside the
queried interval `(now-k, now]`. -/
def StatsWindow.sum (w : StatsWindow) (now : Int) (k : Nat) : Nat :=
  ∑ j ∈ Finset.range k, w.contrib (now - k) now (now - k + 1 + j)

/-- Window well-formedness: every bucket with a non-zero sum sits at the ring
slot of its `lastTime`.  It holds for a fresh window and is preserved by
`insert`, i.e. it holds for every reachable window. -/
def StatsWindow.Inv (w : StatsWindow) : Prop :=
  ∀ s < w.windowSize, (w.buckets s).2 = 0 ∨ (w.buckets s).1 % (w.windowSize : Int) = (s : Int)

/-- The `WorkerStatus` snapshot record. -/
structure WorkerStatus where
  accept1m : Nat := 0
  accept5m : Nat := 0
  accept15m : Nat := 0
  reject15m : Nat := 0
  acceptCount : Nat := 0
  lastShareIP : Nat := 0
  lastShareTime : Nat := 0
deriving DecidableEq

/-- The per-key accumulator `WorkerShares`. -/
structure WorkerShares where
  workerId : Int
  userId : Int
  acceptCount : Nat
  lastShareIP : Nat
  lastShareTime : Nat
  acceptShareSec : StatsWindow
  rejectShareMin : StatsWindow

/-- The `WorkerShares` constructor: zeroed counters, an accept window of 900
one-second buckets and a reject window of 900/60 = 15 one-minute buckets. -/
def WorkerShares.mkShares (workerId userId : Int) : WorkerShares :=
  ⟨workerId, userId, 0, 0, 0,
   StatsWindow.mkWindow STATS_SLIDING_WINDOW_SECONDS,
   StatsWindow.mkWindow (STATS_SLIDING_WINDOW_SECONDS / 60)⟩

/-- `WorkerShares::processShare`: drop the share if
`now > timestamp + 900`; otherwise route it into the accept-per-second or
reject-per-minute window and update the last-share metadata. -/
def WorkerShares.processShare (now : Nat) (sh : Share) (w : WorkerShares) : WorkerShares :=
  if sh.timestamp + STATS_SLIDING_WINDOW_SECONDS < now then w
  else
    let w1 :=
      match sh.result with
      | .ACCEPT =>
        { w with acceptCount := w.acceptCount + 1,
                 acceptShareSec := w.acceptShareSec.insert (sh.timestamp : Int) sh.share }
      | .REJECT =>
        { w with rejectShareMin := w.rejectShareMin.insert ((sh.timestamp / 60 : Nat) : Int) sh.share }
    { w1 with lastShareIP := sh.ip, lastShareTime := sh.timestamp }

/-- `WorkerShares::getWorkerStatus`: build a snapshot from window queries at
the current time and a copy of the scalar fields. -/
def WorkerShares.getWorkerStatus (now : Nat) (w : WorkerShares) : WorkerStatus :=
  { accept1m := w.acceptShareSec.sum (now : Int) 60
    accept5m := w.acceptShareSec.sum (now : Int) 300
    accept15m := w.acceptShareSec.sum (now : Int) 900
    reject15m := w.rejectShareMin.sum ((now / 60 : Nat) : Int) 15
    acceptCount := w.acceptCount
    lastShareIP := w.lastShareIP
    lastShareTime := w.lastShareTime }

/-- `WorkerShares::isExpired`: `lastShareTime + 900 < now`. -/
def WorkerShares.isExpired (now : Nat) (w : WorkerShares) : Bool :=
  w.lastShareTime + STATS_SLIDING_WINDOW_SECONDS < now

/-- `WorkerKey`: the pair `(userId_, workerId_)`. -/
abbrev WorkerKey := Int × Int

/-- One merge-loop iteration of `StatsServer::mergeWorkerStatus`. -/
def mergeStep (s x : WorkerStatus) : WorkerStatus :=
  { accept1m := s.accept1m + x.accept1m
    accept5m := s.accept5m + x.accept5m
    accept15m := s.accept15m + x.accept15m
    reject15m := s.reject15m + x.reject15m
    acceptCount := s.acceptCount + x.acceptCount
    lastShareTime := if x.lastShareTime > s.lastShareTime then x.lastShareTime else s.lastShareTime
    lastShareIP := if x.lastShareTime > s.lastShareTime then x.lastShareIP else s.lastShareIP }

/-- `StatsServer::mergeWorkerStatus`: fold the loop body over the input,
starting from a zeroed `WorkerStatus` (the `size == 0` early return yields
that same zeroed value). -/
def StatsServer.mergeWorkerStatus (l : List WorkerStatus) : WorkerStatus :=
  l.foldl mergeStep {}

/-- The mutable state of a `StatsServer`: the pool-wide accumulator, the
worker map (association list keyed by `WorkerKey`), the per-user worker
counts and the scalar counters. -/
structure StatsServerState where
  poolWorker : WorkerShares
  workerSet : List (WorkerKey × WorkerShares)
  userWorkerCount : Int → Int
  totalWorkerCount : Int
  totalUserCount : Int
  requestCount : Nat
  responseBytes : Nat

/-- The freshly constructed server state: empty registry, zero counters and
a pool worker with key `(0, 0)`. -/
def initState : StatsServerState :=
  ⟨WorkerShares.mkShares 0 0, [], fun _ => 0, 0, 0, 0, 0⟩

/-- `workerSet_.find(k)`. -/
def lookupKey (k : WorkerKey) : List (WorkerKey × WorkerShares) → Option WorkerShares
  | [] => none
  | e :: es => if e.1 = k then some e.2 else lookupKey k es

/-- In-place mutation of the entry stored under `k` (the source mutates the
`WorkerShares` object behind the map's `shared_ptr`). -/
def updateVal (k : WorkerKey) (f : WorkerShares → WorkerShares) :
    List (WorkerKey × WorkerShares) → List (WorkerKey × WorkerShares) :=
  List.map (fun e => if e.1 = k then (e.1, f e.2) else e)

/-- `workerSet_[k] = v`: replace the entry if the key is present, append a
new entry otherwise. -/
def storePair (k : WorkerKey) (v : WorkerShares) (l : List (WorkerKey × WorkerShares)) :
    List (WorkerKey × WorkerShares) :=
  if (lookupKey k l).isSome then
    l.map (fun e => if e.1 = k then (k, v) else e)
  else l ++ [(k, v)]

/-- `StatsServer::_processShare`: probe both keys in the current map, let the
share be processed by the existing accumulators, and install freshly built
accumulators (updating the counters) for the missing keys. -/
def StatsServer.processShareAux (now : Nat) (key1 key2 : WorkerKey) (sh : Share)
    (st : StatsServerState) : StatsServerState :=
  let itr1 := lookupKey key1 st.workerSet
  let itr2 := lookupKey key2 st.workerSet
  let ws1 := if itr1.isSome then updateVal key1 (WorkerShares.processShare now sh) st.workerSet
             else st.workerSet
  let ws2 := if itr2.isSome then updateVal key2 (WorkerShares.processShare now sh) ws1
             else ws1
  let st1 := { st with workerSet := ws2 }
  let st2 :=
    if itr1.isSome then st1
    else
      { st1 with
        workerSet := storePair key1
          (WorkerShares.processShare now sh (WorkerShares.mkShares sh.workerHashId sh.userId))
          st1.workerSet
        totalWorkerCount := st1.totalWorkerCount + 1
        userWorkerCount := fun u =>
          if u = key1.1 then st1.userWorkerCount u + 1 else st1.userWorkerCount u }
  if itr2.isSome then st2
  else
    { st2 with
      workerSet := storePair key2
        (WorkerShares.processShare now sh (WorkerShares.mkShares sh.workerHashId sh.userId))
        st2.workerSet
      totalUserCount := st2.totalUserCount + 1 }

/-- `StatsServer::processShare`: the freshness gate, the pool-wide
accumulator and the dispatch on `key1 = (userId, workerHashId)` and
`key2 = (userId, 0)`. -/
def StatsServer.processShare (now : Nat) (sh : Share) (st : StatsServerState) :
    StatsServerState :=
  if sh.timestamp + STATS_SLIDING_WINDOW_SECONDS < now then st
  else
    let st1 := { st with poolWorker := st.poolWorker.processShare now sh }
    StatsServer.processShareAux now (sh.userId, sh.workerHashId) (sh.userId, 0) sh st1

/-- The C narrowing conversion `int32_t workerId = <int64 value>`:
two's-complement truncation of a 64-bit value to 32 bits. -/
def toInt32 (x : Int) : Int := (x + 2 ^ 31) % 2 ^ 32 - 2 ^ 31

/-- The loop body of `StatsServer::removeExpiredWorkers`: walk the entries,
erase the expired ones while decrementing the matching counters, keep the
rest.  The source narrows the key's 64-bit `workerId_` into a local
`const int32_t workerId` before the `workerId == 0` test, so the branch is
taken on the TRUNCATED id. -/
def sweepGo (now : Nat) : List (WorkerKey × WorkerShares) → StatsServerState → StatsServerState
  | [], st => st
  | e :: es, st =>
    if e.2.isExpired now then
      let st1 :=
        if toInt32 e.1.2 = 0 then { st with totalUserCount := st.totalUserCount - 1 }
        else
          { st with
            totalWorkerCount := st.totalWorkerCount - 1
            userWorkerCount := fun u =>
              if u = e.1.1 then st.userWorkerCount u - 1 else st.userWorkerCount u }
      sweepGo now es st1
    else
      let st1 := sweepGo now es st
      { st1 with workerSet := e :: st1.workerSet }

/-- `StatsServer::removeExpiredWorkers`. -/
def StatsServer.removeExpiredWorkers (now : Nat) (st : StatsServerState) : StatsServerState :=
  sweepGo now st.workerSet { st with workerSet := [] }

/-- `StatsServer::getWorkerStatusBatch`: resolve every key and snapshot the
found accumulators; missing keys keep a zeroed `WorkerStatus`. -/
def StatsServer.getWorkerStatusBatch (now : Nat) (keys : List WorkerKey)
    (st : StatsServerState) : List WorkerStatus :=
  keys.map (fun k =>
    match lookupKey k st.workerSet with
    | some w => w.getWorkerStatus now
    | none => {})

/-- Digit-consuming phase of `strtoll`: accumulate decimal digits, stop at
the first non-digit. -/
def strtollDigits : List Char → Nat → Nat
  | [], acc => acc
  | c :: cs, acc => if c.isDigit then strtollDigits cs (acc * 10 + (c.toNat - 48)) else acc

/-- Model of C `strtoll(s, nullptr, 10)`: skip leading whitespace, read an
optional sign and then decimal digits; with no digits the result is `0`. -/
def strtoll (s : String) : Int :=
  let cs := s.data.dropWhile (fun c =>
    c == ' ' || c == '\t' || c == '\n' || c == '\r' || c == '\x0b' || c == '\x0c')
  match cs with
  | '-' :: rest => -(strtollDigits rest 0 : Int)
  | '+' :: rest => (strtollDigits rest 0 : Int)
  | _ => (strtollDigits cs 0 : Int)

/-- Model of C `atoi`: same parse as `strtoll` in base 10. -/
def atoi (s : String) : Int := strtoll s

/-- The `is_merge` test: the parameter is present and its first character is
`T` or `t`. -/
def isMergeOf (pIsMerge : Option String) : Bool :=
  match pIsMerge with
  | some s =>
    match s.data with
    | c :: _ => c == 'T' || c == 't'
    | [] => false
  | none => false

/-- Comma splitting as `boost::split(v, s, is_any_of(","))` does: empty
tokens are kept, the empty string yields one empty token. -/
def splitCommaAux : List Char → List Char → List String
  | [], acc => [String.mk acc.reverse]
  | c :: cs, acc =>
    if c = ',' then String.mk acc.reverse :: splitCommaAux cs []
    else splitCommaAux cs (c :: acc)

/-- Split a string on commas, keeping empty tokens. -/
def splitComma (s : String) : List String := splitCommaAux s.data []

/-- The keys queried by `StatsServer::getWorkerStatus`: split `worker_id` on
commas and pair each `strtoll`-parsed token with the user id. -/
def workerKeysOf (userId : Int) (pWorkerId : String) : List WorkerKey :=
  (splitComma pWorkerId).map (fun t => (userId, strtoll t))

/-- One JSON row emitted by `StatsServer::getWorkerStatus`: the printed
worker id, the status fields and the optional `"workers"` extra field. -/
structure WorkerRow where
  workerId : Int
  status : WorkerStatus
  workersField : Option Int
deriving DecidableEq

/-- The row list built by `StatsServer::getWorkerStatus`: parse the
parameters, resolve the keys, snapshot (optionally merging), and emit one
row per remaining status; the `"workers"` extra field appears exactly for a
non-merged row whose key is the user-total pseudo-worker. -/
def StatsServer.getWorkerStatusRows (now : Nat) (st : StatsServerState)
    (pUserId pWorkerId : String) (pIsMerge : Option String) : List WorkerRow :=
  let userId := atoi pUserId
  let isMerge := isMergeOf pIsMerge
  let keys := workerKeysOf userId pWorkerId
  let statuses := StatsServer.getWorkerStatusBatch now keys st
  let statuses := if isMerge then [StatsServer.mergeWorkerStatus statuses] else statuses
  (statuses.zip keys).map (fun (p : WorkerStatus × WorkerKey) =>
    { workerId := if isMerge then 0 else p.2.2
      status := p.1
      workersField := if isMerge = false ∧ p.2.2 = 0 then some (st.userWorkerCount userId)
                      else none })

/-- The two response shapes of the `/worker_status` handler. -/
inductive WSResponse where
  | invalidArgs
  | ok (rows : List WorkerRow)
deriving DecidableEq

/-- `inet_ntop(AF_INET, ·)` on the stored address word, reading its bytes in
memory order on a little-endian host. -/
def ipToString (ip : Nat) : String :=
  toString (ip % 256) ++ "." ++ toString (ip / 256 % 256) ++ "." ++
    toString (ip / 65536 % 256) ++ "." ++ toString (ip / 16777216 % 256)

/-- The `evbuffer_add_printf` format of one row of `/worker_status`. -/
def renderWorkerRow (r : WorkerRow) : String :=
  "\x7b\"worker_id\":" ++ toString r.workerId ++
    ",\"accept\":[" ++ toString r.status.accept1m ++ "," ++ toString r.status.accept5m ++
    "," ++ toString r.status.accept15m ++
    "],\"reject\":[0,0," ++ toString r.status.reject15m ++
    "],\"accept_count\":" ++ toString r.status.acceptCount ++
    ",\"last_share_ip\":\"" ++ ipToString r.status.lastShareIP ++
    "\",\"last_share_time\":" ++ toString r.status.lastShareTime ++
    (match r.workersField with
     | some n => ",\"workers\":" ++ toString n
     | none => "") ++ "\x7d"

/-- Comma-joined row list. -/
def renderRows : List WorkerRow → String
  | [] => ""
  | [r] => renderWorkerRow r
  | r :: rs => renderWorkerRow r ++ "," ++ renderRows rs

/-- The exact response bodies written by `StatsServer::httpdGetWorkerStatus`. -/
def renderResponse : WSResponse → String
  | .invalidArgs => "\x7b\"error_no\":1,\"error_msg\":\"invalid args\"\x7d"
  | .ok rows => "\x7b\"error_no\":0,\"error_msg\":\"\",\"result\":[" ++ renderRows rows ++ "]\x7d"

/-- `StatsServer::httpdGetWorkerStatus`: bump `requestCount_`, then either
answer `invalid args` when `user_id` or `worker_id` is missing, or build the
row list, account the response bytes and answer it.  The returned `Nat` is
the HTTP status (always 200, `HTTP_OK`). -/
def StatsServer.httpdGetWorkerStatus (now : Nat) (st : StatsServerState)
    (pUserId pWorkerId pIsMerge : Option String) :
    StatsServerState × WSResponse × Nat :=
  let st1 := { st with requestCount := st.requestCount + 1 }
  match pUserId, pWorkerId with
  | some u, some w =>
    let rows := StatsServer.getWorkerStatusRows now st1 u w pIsMerge
    ({ st1 with responseBytes := st1.responseBytes + (renderResponse (.ok rows)).length },
     .ok rows, 200)
  | _, _ => (st1, .invalidArgs, 200)

/-- Registry states reachable from the fresh server by any interleaving of
`processShare` and `removeExpiredWorkers` calls. -/
inductive Reachable : StatsServerState → Prop
  | init : Reachable initState
  | share (now : Nat) (sh : Share) (st : StatsServerState) :
      Reachable st → Reachable (StatsServer.processShare now sh st)
  | sweep (now : Nat) (st : StatsServerState) :
      Reachable st → Reachable (StatsServer.removeExpiredWorkers now st)

/-- Registry states reachable when every processed share carries a genuine
worker id (`workerHashId ≠ 0`; the id `0` is reserved for the user-total
pseudo-worker). -/
inductive ReachableV : StatsServerState → Prop
  | init : ReachableV initState
  | share (now : Nat) (sh : Share) (st : StatsServerState) :
      sh.workerHashId ≠ 0 → ReachableV st → ReachableV (StatsServer.processShare now sh st)
  | sweep (now : Nat) (st : StatsServerState) :
      ReachableV st → ReachableV (StatsServer.removeExpiredWorkers now st)

/-! ### Helper lemmas about `mergeWorkerStatus` -/

/-- Maximum of a list of naturals (`0` on the empty list). -/
def listMax (l : List Nat) : Nat := l.foldr max 0

theorem listMax_cons (x : Nat) (xs : List Nat) : listMax (x :: xs) = max x (listMax xs) := rfl

theorem le_listMax {l : List Nat} {x : Nat} (h : x ∈ l) : x ≤ listMax l := by
  induction l with
  | nil => cases h
  | cons a as ih =>
    rcases List.mem_cons.mp h with rfl | h
    · exact le_max_left _ _
    · exact le_trans (ih h) (le_max_right _ _)

theorem listMax_le {l : List Nat} {n : Nat} (h : ∀ x ∈ l, x ≤ n) : listMax l ≤ n := by
  induction l with
  | nil => exact Nat.zero_le n
  | cons a as ih =>
    exact max_le (h a (List.mem_cons_self a as)) (ih fun x hx => h x (List.mem_cons_of_mem a hx))

theorem listMax_perm {l1 l2 : List Nat} (h : l1.Perm l2) : listMax l1 = listMax l2 :=
  le_antisymm
    (listMax_le fun x hx => le_listMax (h.mem_iff.mp hx))
    (listMax_le fun x hx => le_listMax (h.mem_iff.mpr hx))

theorem listMax_join (L : List (List Nat)) : listMax (L.map listMax) = listMax L.flatten :=
  le_antisymm
    (listMax_le fun x hx => by
      rcases List.mem_map.mp hx with ⟨g, hg, rfl⟩
      exact listMax_le fun y hy => le_listMax (List.mem_flatten.mpr ⟨g, hg, hy⟩))
    (listMax_le fun x hx => by
      rcases List.mem_flatten.mp hx with ⟨g, hg, hxg⟩
      exact le_trans (le_listMax hxg) (le_listMax (List.mem_map_of_mem listMax hg)))

theorem listMax_append (a b : List Nat) : listMax (a ++ b) = max (listMax a) (listMax b) := by
  induction a with
  | nil => simp [listMax]
  | cons x xs ih => simp [listMax_cons, List.cons_append, ih, max_assoc]

theorem foldl_mergeStep_accept1m :
    ∀ (l : List WorkerStatus) (init : WorkerStatus),
      (l.foldl mergeStep init).accept1m = init.accept1m + (l.map (fun s => s.accept1m)).sum
  | [], _ => by simp
  | x :: xs, init => by
    rw [List.foldl_cons, foldl_mergeStep_accept1m xs]
    simp [mergeStep, Nat.add_assoc]

theorem foldl_mergeStep_accept5m :
    ∀ (l : List WorkerStatus) (init : WorkerStatus),
      (l.foldl mergeStep init).accept5m = init.accept5m + (l.map (fun s => s.accept5m)).sum
  | [], _ => by simp
  | x :: xs, init => by
    rw [List.foldl_cons, foldl_mergeStep_accept5m xs]
    simp [mergeStep, Nat.add_assoc]

theorem foldl_mergeStep_accept15m :
    ∀ (l : List WorkerStatus) (init : WorkerStatus),
      (l.foldl mergeStep init).accept15m = init.accept15m + (l.map (fun s => s.accept15m)).sum
  | [], _ => by simp
  | x :: xs, init => by
    rw [List.foldl_cons, foldl_mergeStep_accept15m xs]
    simp [mergeStep, Nat.add_assoc]

theorem foldl_mergeStep_reject15m :
    ∀ (l : List WorkerStatus) (init : WorkerStatus),
      (l.foldl mergeStep init).reject15m = init.reject15m + (l.map (fun s => s.reject15m)).sum
  | [], _ => by simp
  | x :: xs, init => by
    rw [List.foldl_cons, foldl_mergeStep_reject15m xs]
    simp [mergeStep, Nat.add_assoc]

theorem foldl_mergeStep_acceptCount :
    ∀ (l : List WorkerStatus) (init : WorkerStatus),
      (l.foldl mergeStep init).acceptCount = init.acceptCount + (l.map (fun s => s.acceptCount)).sum
  | [], _ => by simp
  | x :: xs, init => by
    rw [List.foldl_cons, foldl_mergeStep_acceptCount xs]
    simp [mergeStep, Nat.add_assoc]

theorem foldl_mergeStep_time :
    ∀ (l : List WorkerStatus) (init : WorkerStatus),
      (l.foldl mergeStep init).lastShareTime
        = max init.lastShareTime (listMax (l.map (fun s => s.lastShareTime)))
  | [], init => by simp [listMax]
  | x :: xs, init => by
    rw [List.foldl_cons, foldl_mergeStep_time xs]
    simp only [List.map_cons, listMax_cons, mergeStep]
    rcases Nat.lt_or_ge init.lastShareTime x.lastShareTime with h | h
    · rw [if_pos h, Nat.max_eq_right (le_trans (Nat.le_of_lt h) (Nat.le_max_left _ _))]
    · rw [if_neg (Nat.not_lt.mpr h), ← Nat.max_assoc, Nat.max_eq_left h]

theorem merge_accept1m (l : List WorkerStatus) :
    (StatsServer.mergeWorkerStatus l).accept1m = (l.map (fun s => s.accept1m)).sum := by
  rw [StatsServer.mergeWorkerStatus, foldl_mergeStep_accept1m]; simp

theorem merge_accept5m (l : List WorkerStatus) :
    (StatsServer.mergeWorkerStatus l).accept5m = (l.map (fun s => s.accept5m)).sum := by
  rw [StatsServer.mergeWorkerStatus, foldl_mergeStep_accept5m]; simp

theorem merge_accept15m (l : List WorkerStatus) :
    (StatsServer.mergeWorkerStatus l).accept15m = (l.map (fun s => s.accept15m)).sum := by
  rw [StatsServer.mergeWorkerStatus, foldl_mergeStep_accept15m]; simp

theorem merge_reject15m (l : List WorkerStatus) :
    (StatsServer.mergeWorkerStatus l).reject15m = (l.map (fun s => s.reject15m)).sum := by
  rw [StatsServer.mergeWorkerStatus, foldl_mergeStep_reject15m]; simp

theorem merge_acceptCount (l : List WorkerStatus) :
    (StatsServer.mergeWorkerStatus l).acceptCount = (l.map (fun s => s.acceptCount)).sum := by
  rw [StatsServer.mergeWorkerStatus, foldl_mergeStep_acceptCount]; simp

theorem merge_time (l : List WorkerStatus) :
    (StatsServer.mergeWorkerStatus l).lastShareTime = listMax (l.map (fun s => s.lastShareTime)) := by
  rw [StatsServer.mergeWorkerStatus, foldl_mergeStep_time]
  exact Nat.max_eq_right (Nat.zero_le _)

/-- The `lastShareIP` selection law of the merge loop: `0` when every input
`lastShareTime` is `0`, otherwise the IP of the earliest input attaining the
maximum `lastShareTime`. -/
theorem merge_last_ip_spec (l : List WorkerStatus) :
    (listMax (l.map (fun s => s.lastShareTime)) = 0 ∧
      (StatsServer.mergeWorkerStatus l).lastShareIP = 0) ∨
    (∃ i : Fin l.length,
      0 < listMax (l.map (fun s => s.lastShareTime)) ∧
      (l.get i).lastShareTime = listMax (l.map (fun s => s.lastShareTime)) ∧
      (StatsServer.mergeWorkerStatus l).lastShareIP = (l.get i).lastShareIP ∧
      ∀ j : Fin l.length, (j : Nat) < (i : Nat) →
        (l.get j).lastShareTime < listMax (l.map (fun s => s.lastShareTime))) := by
  induction l using List.reverseRecOn with
  | nil => exact Or.inl ⟨rfl, rfl⟩
  | append_singleton xs x ih =>
    have hfold : StatsServer.mergeWorkerStatus (xs ++ [x])
        = mergeStep (StatsServer.mergeWorkerStatus xs) x := by
      simp [StatsServer.mergeWorkerStatus, List.foldl_append]
    have hmax : listMax ((xs ++ [x]).map (fun s => s.lastShareTime))
        = max (listMax (xs.map (fun s => s.lastShareTime))) x.lastShareTime := by
      rw [List.map_append, listMax_append]
      simp [listMax]
    have htime : (StatsServer.mergeWorkerStatus xs).lastShareTime
        = listMax (xs.map (fun s => s.lastShareTime)) := merge_time xs
    rcases Nat.lt_or_ge (StatsServer.mergeWorkerStatus xs).lastShareTime x.lastShareTime
      with hlt | hge
    · -- the appended element x strictly beats the old maximum
      have hlt2 : listMax (xs.map (fun s => s.lastShareTime)) < x.lastShareTime := by
        rw [← htime]; exact hlt
      have hxmax : listMax ((xs ++ [x]).map (fun s => s.lastShareTime)) = x.lastShareTime := by
        rw [hmax]; exact Nat.max_eq_right (Nat.le_of_lt hlt2)
      have hlen : xs.length < (xs ++ [x]).length := by simp
      have hget : (xs ++ [x]).get ⟨xs.length, hlen⟩ = x := by
        simp only [List.get_eq_getElem]
        exact List.getElem_concat_length xs x xs.length rfl _
      refine Or.inr ⟨⟨xs.length, hlen⟩, ?_, ?_, ?_, ?_⟩
      · rw [hxmax]; omega
      · rw [hget, hxmax]
      · rw [hfold, hget]
        simp only [mergeStep]
        rw [if_pos hlt]
      · intro j hj
        have hjlen : (j : Nat) < xs.length := hj
        have hgetj : (xs ++ [x]).get j = xs.get ⟨(j : Nat), hjlen⟩ := by
          simp only [List.get_eq_getElem]
          exact List.getElem_append_left hjlen
        rw [hgetj, hxmax]
        have hmem : (xs.get ⟨(j : Nat), hjlen⟩).lastShareTime
            ∈ xs.map (fun s => s.lastShareTime) :=
          List.mem_map_of_mem _ (List.get_mem xs _ hjlen)
        exact lt_of_le_of_lt (le_listMax hmem) hlt2
    · -- x does not beat the old maximum: everything is inherited
      have hge2 : x.lastShareTime ≤ listMax (xs.map (fun s => s.lastShareTime)) := by
        rw [← htime]; exact hge
      have hmax2 : listMax ((xs ++ [x]).map (fun s => s.lastShareTime))
          = listMax (xs.map (fun s => s.lastShareTime)) := by
        rw [hmax]; exact Nat.max_eq_left hge2
      have hip : (StatsServer.mergeWorkerStatus (xs ++ [x])).lastShareIP
          = (StatsServer.mergeWorkerStatus xs).lastShareIP := by
        rw [hfold]
        simp only [mergeStep]
        rw [if_neg (Nat.not_lt.mpr hge)]
      rcases ih with ⟨h0, hip0⟩ | ⟨i, hpos, hmaxi, hipi, hprev⟩
      · exact Or.inl ⟨by rw [hmax2]; exact h0, by rw [hip]; exact hip0⟩
      · have hilen : (i : Nat) < (xs ++ [x]).length := by
          simp only [List.length_append, List.length_singleton]
          exact Nat.lt_succ_of_lt i.isLt
        have hgeti : (xs ++ [x]).get ⟨(i : Nat), hilen⟩ = xs.get i := by
          simp only [List.get_eq_getElem]
          exact List.getElem_append_left i.isLt
        refine Or.inr ⟨⟨(i : Nat), hilen⟩, ?_, ?_, ?_, ?_⟩
        · rw [hmax2]; exact hpos
        · rw [hgeti, hmax2]; exact hmaxi
        · rw [hip, hgeti]; exact hipi
        · intro j hj
          have hjlt : (j : Nat) < (i : Nat) := hj
          have hjlen : (j : Nat) < xs.length := lt_trans hjlt i.isLt
          have hgetj : (xs ++ [x]).get j = xs.get ⟨(j : Nat), hjlen⟩ := by
            simp only [List.get_eq_getElem]
            exact List.getElem_append_left hjlen
          rw [hgetj, hmax2]
          exact hprev ⟨(j : Nat), hjlen⟩ hjlt


theorem getWorkerStatus_time (now : Nat) (w : WorkerShares) :
    (w.getWorkerStatus now).lastShareTime = w.lastShareTime := rfl

/-- Generic snapshot-merge argument for the additive fields: any field
projection that is additive under `mergeWorkerStatus` gives the same value
on the merge of per-group merges as on the merge over the whole set. -/
theorem merge_merge_field (φ : WorkerStatus → Nat)
    (hφ : ∀ l : List WorkerStatus,
      φ (StatsServer.mergeWorkerStatus l) = (l.map φ).sum)
    (now : Nat) (S : List WorkerShares) (P : List (List WorkerShares))
    (hP : P.flatten.Perm S) :
    φ (StatsServer.mergeWorkerStatus (P.map (fun g =>
        StatsServer.mergeWorkerStatus (g.map (fun w => w.getWorkerStatus now)))))
      = φ (StatsServer.mergeWorkerStatus (S.map (fun w => w.getWorkerStatus now))) := by
  simp only [hφ, List.map_map, Function.comp_def]
  have h1 : P.map (fun g => ((g.map (fun w => φ (w.getWorkerStatus now))).sum))
      = (P.map (fun g => g.map (fun w => φ (w.getWorkerStatus now)))).map List.sum := by
    simp [List.map_map, Function.comp_def]
  rw [h1, ← List.sum_flatten, ← List.map_flatten]
  exact ((hP.map (fun w => φ (w.getWorkerStatus now))).sum_eq)

/-- Claim C3: snapshot–merge law.  For any list `S` of `WorkerShares`, any
partition `P` of `S` into groups, and a common query time `now`, merging the
per-group merged snapshots agrees with the single merge over all of `S` on
`accept1m`, `accept5m`, `accept15m`, `reject15m` and `acceptCount`, and its
`lastShareTime` is the maximum `lastShareTime` over all members of `S`. -/
theorem snapshot_merge_law (now : Nat) (S : List WorkerShares)
    (P : List (List WorkerShares)) (hP : P.flatten.Perm S) :
    (StatsServer.mergeWorkerStatus (P.map (fun g =>
        StatsServer.mergeWorkerStatus (g.map (fun w => w.getWorkerStatus now))))).accept1m
      = (StatsServer.mergeWorkerStatus (S.map (fun w => w.getWorkerStatus now))).accept1m ∧
    (StatsServer.mergeWorkerStatus (P.map (fun g =>
        StatsServer.mergeWorkerStatus (g.map (fun w => w.getWorkerStatus now))))).accept5m
      = (StatsServer.mergeWorkerStatus (S.map (fun w => w.getWorkerStatus now))).accept5m ∧
    (StatsServer.mergeWorkerStatus (P.map (fun g =>
        StatsServer.mergeWorkerStatus (g.map (fun w => w.getWorkerStatus now))))).accept15m
      = (StatsServer.mergeWorkerStatus (S.map (fun w => w.getWorkerStatus now))).accept15m ∧
    (StatsServer.mergeWorkerStatus (P.map (fun g =>
        StatsServer.mergeWorkerStatus (g.map (fun w => w.getWorkerStatus now))))).reject15m
      = (StatsServer.mergeWorkerStatus (S.map (fun w => w.getWorkerStatus now))).reject15m ∧
    (StatsServer.mergeWorkerStatus (P.map (fun g =>
        StatsServer.mergeWorkerStatus (g.map (fun w => w.getWorkerStatus now))))).acceptCount
      = (StatsServer.mergeWorkerStatus (S.map (fun w => w.getWorkerStatus now))).acceptCount ∧
    (StatsServer.mergeWorkerStatus (P.map (fun g =>
        StatsServer.mergeWorkerStatus (g.map (fun w => w.getWorkerStatus now))))).lastShareTime
      = listMax (S.map (fun w => w.lastShareTime)) := by
  refine ⟨merge_merge_field (fun s => s.accept1m) merge_accept1m now S P hP,
    merge_merge_field (fun s => s.accept5m) merge_accept5m now S P hP,
    merge_merge_field (fun s => s.accept15m) merge_accept15m now S P hP,
    merge_merge_field (fun s => s.reject15m) merge_reject15m now S P hP,
    merge_merge_field (fun s => s.acceptCount) merge_acceptCount now S P hP, ?_⟩
  rw [merge_time, List.map_map]
  simp only [Function.comp_def, merge_time, List.map_map, getWorkerStatus_time]
  have h1 : P.map (fun g => listMax (g.map (fun w => w.lastShareTime)))
      = (P.map (fun g => g.map (fun w => w.lastShareTime))).map listMax := by
    simp [List.map_map, Function.comp_def]
  rw [h1, listMax_join, ← List.map_flatten]
  exact listMax_perm (hP.map (fun w => w.lastShareTime))

/-- Witness for C3 at a concrete two-group partition. -/
theorem snapshot_merge_law_witness :
    ([[WorkerShares.mkShares 5 1], [WorkerShares.mkShares 6 1]].flatten.Perm
        [WorkerShares.mkShares 5 1, WorkerShares.mkShares 6 1]) ∧
    (StatsServer.mergeWorkerStatus
        ([[WorkerShares.mkShares 5 1], [WorkerShares.mkShares 6 1]].map (fun g =>
          StatsServer.mergeWorkerStatus (g.map (fun w => w.getWorkerStatus 1000))))).accept1m
      = (StatsServer.mergeWorkerStatus
          ([WorkerShares.mkShares 5 1, WorkerShares.mkShares 6 1].map
            (fun w => w.getWorkerStatus 1000))).accept1m :=
  ⟨by simp, (snapshot_merge_law 1000
      [WorkerShares.mkShares 5 1, WorkerShares.mkShares 6 1]
      [[WorkerShares.mkShares 5 1], [WorkerShares.mkShares 6 1]] (by simp)).1⟩

/-- Counterexample to claim C4 as stated: on the singleton input whose only
snapshot has `lastShareTime = 0` and `lastShareIP = 9`, the merge loop never
takes the strictly-greater branch, so the returned `lastShareIP` is `0`
rather than the IP of the (unique, maximal) snapshot. -/
theorem merge_lastShareIP_cex :
    (StatsServer.mergeWorkerStatus
        [({ lastShareIP := 9, lastShareTime := 0 } : WorkerStatus)]).lastShareIP = 0 ∧
    ({ lastShareIP := 9, lastShareTime := 0 } : WorkerStatus).lastShareIP = 9 :=
  ⟨rfl, rfl⟩

/-- Claim C4 (amended): for every non-empty input, `mergeWorkerStatus` sums
`accept1m/5m/15m`, `reject15m` and `acceptCount` element-wise, takes
`lastShareTime` as the maximum over the input, and takes `lastShareIP`
together with it from the earliest snapshot attaining that maximum — except
that when every input `lastShareTime` is `0` the returned `lastShareIP` is
`0` (the zero-initialised accumulator wins all ties against time `0`). -/
theorem merge_status_spec (l : List WorkerStatus) ( _hne : l ≠ []) :
    (StatsServer.mergeWorkerStatus l).accept1m = (l.map (fun s => s.accept1m)).sum ∧
    (StatsServer.mergeWorkerStatus l).accept5m = (l.map (fun s => s.accept5m)).sum ∧
    (StatsServer.mergeWorkerStatus l).accept15m = (l.map (fun s => s.accept15m)).sum ∧
    (StatsServer.mergeWorkerStatus l).reject15m = (l.map (fun s => s.reject15m)).sum ∧
    (StatsServer.mergeWorkerStatus l).acceptCount = (l.map (fun s => s.acceptCount)).sum ∧
    (StatsServer.mergeWorkerStatus l).lastShareTime = listMax (l.map (fun s => s.lastShareTime)) ∧
    ((listMax (l.map (fun s => s.lastShareTime)) = 0 ∧
        (StatsServer.mergeWorkerStatus l).lastShareIP = 0) ∨
      (∃ i : Fin l.length,
        0 < listMax (l.map (fun s => s.lastShareTime)) ∧
        (l.get i).lastShareTime = listMax (l.map (fun s => s.lastShareTime)) ∧
        (StatsServer.mergeWorkerStatus l).lastShareIP = (l.get i).lastShareIP ∧
        ∀ j : Fin l.length, (j : Nat) < (i : Nat) →
          (l.get j).lastShareTime < listMax (l.map (fun s => s.lastShareTime)))) :=
  ⟨merge_accept1m l, merge_accept5m l, merge_accept15m l, merge_reject15m l,
   merge_acceptCount l, merge_time l, merge_last_ip_spec l⟩

/-- Witness for amended C4 at a concrete singleton input. -/
theorem merge_status_spec_witness :
    ([({ accept1m := 3, lastShareIP := 6, lastShareTime := 10 } : WorkerStatus)]
        ≠ ([] : List WorkerStatus)) ∧
    (StatsServer.mergeWorkerStatus
        [({ accept1m := 3, lastShareIP := 6, lastShareTime := 10 } : WorkerStatus)]).accept1m
      = ([({ accept1m := 3, lastShareIP := 6, lastShareTime := 10 } : WorkerStatus)].map
          (fun s => s.accept1m)).sum :=
  ⟨by decide,
   (merge_status_spec [({ accept1m := 3, lastShareIP := 6, lastShareTime := 10 } : WorkerStatus)]
      (by decide)).1⟩

/-! ### The sliding-window semantics (claim C7) -/

theorem insert_windowSize (w : StatsWindow) (t : Int) (v : Nat) :
    (w.insert t v).windowSize = w.windowSize := by
  by_cases h : (w.buckets (w.slot t)).1 = t <;> simp [StatsWindow.insert, h]

theorem insert_buckets (w : StatsWindow) (t : Int) (v : Nat) :
    (w.insert t v).buckets
      = Function.update w.buckets (w.slot t)
          (if (w.buckets (w.slot t)).1 = t then (t, (w.buckets (w.slot t)).2 + v) else (t, v)) := by
  by_cases h : (w.buckets (w.slot t)).1 = t <;> simp [StatsWindow.insert, h]

theorem mkWindow_inv (W : Nat) : StatsWindow.Inv (StatsWindow.mkWindow W) := by
  intro s _
  exact Or.inl rfl

theorem insert_preserves_inv (w : StatsWindow) (t : Int) (v : Nat)
    (h : StatsWindow.Inv w) : StatsWindow.Inv (w.insert t v) := by
  intro s hs
  rw [insert_windowSize] at hs
  rw [insert_windowSize, insert_buckets]
  by_cases hseq : s = w.slot t
  · subst hseq
    rw [Function.update_same]
    right
    have hW : 0 < w.windowSize := Nat.pos_of_ne_zero (by intro h0; omega)
    have hWz : ((w.windowSize : Int)) ≠ 0 := by exact_mod_cast hW.ne'
    have hfst : (if (w.buckets (w.slot t)).1 = t
        then (t, (w.buckets (w.slot t)).2 + v) else (t, v)).1 = t := by
      split <;> rfl
    rw [hfst]
    unfold StatsWindow.slot
    have h1 : 0 ≤ t % (w.windowSize : Int) := Int.emod_nonneg t hWz
    omega
  · rw [Function.update_noteq hseq]
    exact h s hs

theorem statsWindow_sum_eq_range (w : StatsWindow) (now : Int) (k : Nat)
    (hInv : StatsWindow.Inv w) (hk1 : 1 ≤ k) (hkW : k ≤ w.windowSize) :
    w.sum now k = ∑ s ∈ Finset.range w.windowSize,
      (if now - k < (w.buckets s).1 ∧ (w.buckets s).1 ≤ now then (w.buckets s).2 else 0) := by
  have hW : 0 < w.windowSize := lt_of_lt_of_le hk1 hkW
  have hWz : ((w.windowSize : Int)) ≠ 0 := by
    intro h0
    rw [Int.natCast_eq_zero] at h0
    omega
  have hWpos : (0 : Int) < (w.windowSize : Int) := by exact_mod_cast hW
  have hinj : ∀ j1 ∈ Finset.range k, ∀ j2 ∈ Finset.range k,
      w.slot (now - k + 1 + j1) = w.slot (now - k + 1 + j2) → j1 = j2 := by
    intro j1 h1 j2 h2 he
    rw [Finset.mem_range] at h1 h2
    unfold StatsWindow.slot at he
    have n1 : 0 ≤ (now - k + 1 + j1) % (w.windowSize : Int) :=
      Int.emod_nonneg _ hWz
    have n2 : 0 ≤ (now - k + 1 + j2) % (w.windowSize : Int) :=
      Int.emod_nonneg _ hWz
    have e1 : (now - k + 1 + (j1 : Int)) % (w.windowSize : Int)
        = (now - k + 1 + (j2 : Int)) % (w.windowSize : Int) := by omega
    have hz : ((j1 : Int) - j2) % (w.windowSize : Int) = 0 := by
      have h3 := Int.sub_emod (now - k + 1 + j1) (now - k + 1 + j2) (w.windowSize : Int)
      have h4 : (now - (k : Int) + 1 + j1) - (now - k + 1 + j2) = (j1 : Int) - j2 := by ring
      rw [h4, e1, Int.sub_self] at h3
      rw [h3]
      simp
    have hdvd : (w.windowSize : Int) ∣ ((j1 : Int) - j2) := Int.dvd_of_emod_eq_zero hz
    have habs : |(j1 : Int) - j2| < (w.windowSize : Int) := by
      rw [abs_lt]
      omega
    have := Int.eq_zero_of_abs_lt_dvd hdvd habs
    omega
  have hsub : Finset.image (fun j : Nat => w.slot (now - k + 1 + (j : Int))) (Finset.range k)
      ⊆ Finset.range w.windowSize := by
    intro s hs
    rw [Finset.mem_image] at hs
    rcases hs with ⟨j, _, rfl⟩
    rw [Finset.mem_range]
    unfold StatsWindow.slot
    have h1 := Int.emod_lt_of_pos (now - k + 1 + j) hWpos
    have h2 := Int.emod_nonneg (now - k + 1 + j) hWz
    omega
  have hvanish : ∀ s ∈ Finset.range w.windowSize,
      s ∉ Finset.image (fun j : Nat => w.slot (now - k + 1 + (j : Int))) (Finset.range k) →
      (if now - k < (w.buckets s).1 ∧ (w.buckets s).1 ≤ now then (w.buckets s).2 else 0) = 0 := by
    intro s hsW hsnot
    rw [Finset.mem_range] at hsW
    rcases hInv s hsW with h0 | hmod
    · rw [h0]
      simp
    · by_cases hcond : now - k < (w.buckets s).1 ∧ (w.buckets s).1 ≤ now
      · exfalso
        apply hsnot
        rw [Finset.mem_image]
        obtain ⟨hc1, hc2⟩ := hcond
        refine ⟨((w.buckets s).1 - (now - k + 1)).toNat, ?_, ?_⟩
        · rw [Finset.mem_range]
          omega
        · have hj : now - (k : Int) + 1 + (((w.buckets s).1 - (now - k + 1)).toNat : Int)
              = (w.buckets s).1 := by omega
          unfold StatsWindow.slot
          rw [hj, hmod]
          simp
      · rw [if_neg hcond]
  have h0 : w.sum now k = ∑ j ∈ Finset.range k,
      (fun s => if now - k < (w.buckets s).1 ∧ (w.buckets s).1 ≤ now then (w.buckets s).2 else 0)
        (w.slot (now - k + 1 + j)) := rfl
  have hsum2 := @Finset.sum_image Nat Nat Nat
    (fun s => if now - k < (w.buckets s).1 ∧ (w.buckets s).1 ≤ now then (w.buckets s).2 else 0)
    _ _ (Finset.range k) (fun j : Nat => w.slot (now - k + 1 + (j : Int))) hinj
  rw [h0]
  exact hsum2.symm.trans (Finset.sum_subset hsub hvanish)

/-- Claim C7 (spec-modelled): the sliding-window semantics.  A fresh window
is well-formed, `insert` keeps well-formedness; `insert (t, v)` adds `v`
into the bucket at `t mod W` when its stored `lastTime` equals `t`,
overwrites it with `(t, v)` otherwise, and leaves every other bucket alone;
and on every well-formed window, `sum (now, k)` with `1 ≤ k ≤ W` is exactly
the sum of the buckets whose stored `lastTime` lies in `(now - k, now]`,
every other bucket contributing zero. -/
theorem statsWindow_semantics :
    (∀ W : Nat, StatsWindow.Inv (StatsWindow.mkWindow W)) ∧
    (∀ (w : StatsWindow) (t : Int) (v : Nat),
      StatsWindow.Inv w → StatsWindow.Inv (w.insert t v)) ∧
    (∀ (w : StatsWindow) (t : Int) (v : Nat),
      ((w.buckets (w.slot t)).1 = t →
        (w.insert t v).buckets (w.slot t) = (t, (w.buckets (w.slot t)).2 + v)) ∧
      ((w.buckets (w.slot t)).1 ≠ t → (w.insert t v).buckets (w.slot t) = (t, v)) ∧
      (∀ s : Nat, s ≠ w.slot t → (w.insert t v).buckets s = w.buckets s)) ∧
    (∀ (w : StatsWindow) (now : Int) (k : Nat),
      StatsWindow.Inv w → 1 ≤ k → k ≤ w.windowSize →
      w.sum now k = ∑ s ∈ Finset.range w.windowSize,
        (if now - k < (w.buckets s).1 ∧ (w.buckets s).1 ≤ now then (w.buckets s).2 else 0)) := by
  refine ⟨mkWindow_inv, insert_preserves_inv, ?_, statsWindow_sum_eq_range⟩
  intro w t v
  refine ⟨?_, ?_, ?_⟩
  · intro h
    rw [insert_buckets, Function.update_same, if_pos h]
  · intro h
    rw [insert_buckets, Function.update_same, if_neg h]
  · intro s hs
    rw [insert_buckets, Function.update_noteq hs]

/-- A concrete window built by two inserts, for the C7 witness. -/
def w7 : StatsWindow := ((StatsWindow.mkWindow 3).insert 5 2).insert 6 7

/-- Witness for C7: the sum law evaluated on a concrete window. -/
theorem statsWindow_semantics_witness :
    StatsWindow.Inv w7 ∧ 1 ≤ 2 ∧ 2 ≤ w7.windowSize ∧
    w7.sum 6 2 = ∑ s ∈ Finset.range w7.windowSize,
      (if (6 : Int) - (2 : Nat) < (w7.buckets s).1 ∧ (w7.buckets s).1 ≤ 6
        then (w7.buckets s).2 else 0) :=
  ⟨insert_preserves_inv _ _ _ (insert_preserves_inv _ _ _ (mkWindow_inv 3)), by decide, by decide,
   statsWindow_semantics.2.2.2 w7 6 2
     (insert_preserves_inv _ _ _ (insert_preserves_inv _ _ _ (mkWindow_inv 3)))
     (by decide) (by decide)⟩

/-! ### The expiry sweep (claims C5 and C1) -/

theorem sweepGo_workerSet (now : Nat) :
    ∀ (l : List (WorkerKey × WorkerShares)) (st : StatsServerState),
      (sweepGo now l st).workerSet
        = l.filter (fun e => !(e.2.isExpired now)) ++ st.workerSet
  | [], st => by simp [sweepGo]
  | e :: es, st => by
    by_cases hx : e.2.isExpired now
    · by_cases hk : toInt32 e.1.2 = 0 <;>
        simp [sweepGo, hx, hk, sweepGo_workerSet now es, List.filter_cons]
    · simp [sweepGo, hx, sweepGo_workerSet now es, List.filter_cons]

theorem sweepGo_totalUserCount (now : Nat) :
    ∀ (l : List (WorkerKey × WorkerShares)) (st : StatsServerState),
      (sweepGo now l st).totalUserCount
        = st.totalUserCount
          - (l.countP (fun e => e.2.isExpired now && (toInt32 e.1.2 == 0)) : Int)
  | [], st => by simp [sweepGo]
  | e :: es, st => by
    by_cases hx : e.2.isExpired now
    · by_cases hk : toInt32 e.1.2 = 0
      · simp [sweepGo, hx, hk, sweepGo_totalUserCount now es, List.countP_cons]
        push_cast
        ring
      · simp [sweepGo, hx, hk, sweepGo_totalUserCount now es, List.countP_cons]
    · simp [sweepGo, hx, sweepGo_totalUserCount now es, List.countP_cons]

theorem sweepGo_totalWorkerCount (now : Nat) :
    ∀ (l : List (WorkerKey × WorkerShares)) (st : StatsServerState),
      (sweepGo now l st).totalWorkerCount
        = st.totalWorkerCount
          - (l.countP (fun e => e.2.isExpired now && !(toInt32 e.1.2 == 0)) : Int)
  | [], st => by simp [sweepGo]
  | e :: es, st => by
    by_cases hx : e.2.isExpired now
    · by_cases hk : toInt32 e.1.2 = 0
      · simp [sweepGo, hx, hk, sweepGo_totalWorkerCount now es, List.countP_cons]
      · simp [sweepGo, hx, hk, sweepGo_totalWorkerCount now es, List.countP_cons]
        push_cast
        ring
    · simp [sweepGo, hx, sweepGo_totalWorkerCount now es, List.countP_cons]

theorem sweepGo_userWorkerCount (now : Nat) (u : Int) :
    ∀ (l : List (WorkerKey × WorkerShares)) (st : StatsServerState),
      (sweepGo now l st).userWorkerCount u
        = st.userWorkerCount u
          - (l.countP (fun e => e.2.isExpired now && !(toInt32 e.1.2 == 0) && (e.1.1 == u)) : Int)
  | [], st => by simp [sweepGo]
  | e :: es, st => by
    by_cases hx : e.2.isExpired now
    · by_cases hk : toInt32 e.1.2 = 0
      · simp [sweepGo, hx, hk, sweepGo_userWorkerCount now u es, List.countP_cons]
      · by_cases hu : u = e.1.1
        · subst hu
          simp [sweepGo, hx, hk, sweepGo_userWorkerCount now e.1.1 es, List.countP_cons]
          push_cast
          ring
        · have hu2 : (e.1.1 == u) = false := by
            simp [beq_iff_eq]
            intro hC
            exact hu hC.symm
          simp [sweepGo, hx, hk, hu, hu2, sweepGo_userWorkerCount now u es, List.countP_cons]
    · simp [sweepGo, hx, sweepGo_userWorkerCount now u es, List.countP_cons]

/-- An expired entry whose 64-bit worker id is a nonzero multiple of
`2^32`, for the C5 failing input. -/
def wBug : WorkerShares := { WorkerShares.mkShares 4294967296 1 with lastShareTime := 10 }

/-- The C5 failing input: a registry holding (as insertion built it — one
worker entry counted under `totalWorkerCount_` and `userWorkerCount_[1]`)
a single expired entry whose key carries the worker id `2^32`. -/
def stBug : StatsServerState :=
  { poolWorker := WorkerShares.mkShares 0 0
    workerSet := [((1, 4294967296), wBug)]
    userWorkerCount := fun u => if u = 1 then 1 else 0
    totalWorkerCount := 1
    totalUserCount := 0
    requestCount := 0
    responseBytes := 0 }

/-- Claim C5, failing input (code bug): `Statistics.cc` narrows the key's
64-bit worker id into `const int32_t workerId` before the `workerId == 0`
test of the sweep.  Removing the expired entry with worker id `2^32`
(nonzero, so by the claim — and symmetrically to insertion —
`totalWorkerCount_` and `userWorkerCount_[1]` should be decremented) in
fact decrements `totalUserCount_` and leaves `totalWorkerCount_` and
`userWorkerCount_[1]` untouched. -/
theorem removeExpiredWorkers_truncation_bug :
    ((1, (4294967296 : Int)) : WorkerKey).2 ≠ 0 ∧
    (StatsServer.removeExpiredWorkers 1000 stBug).workerSet = [] ∧
    (StatsServer.removeExpiredWorkers 1000 stBug).totalUserCount
      = stBug.totalUserCount - 1 ∧
    (StatsServer.removeExpiredWorkers 1000 stBug).totalWorkerCount
      = stBug.totalWorkerCount ∧
    (StatsServer.removeExpiredWorkers 1000 stBug).userWorkerCount 1
      = stBug.userWorkerCount 1 :=
  ⟨by decide, rfl, by decide, by decide, by decide⟩

/-! ### Counter symmetry (claim C1) -/

theorem lookupKey_updateVal_isSome (k2 k : WorkerKey) (f : WorkerShares → WorkerShares) :
    ∀ l : List (WorkerKey × WorkerShares),
      (lookupKey k2 (updateVal k f l)).isSome = (lookupKey k2 l).isSome
  | [] => rfl
  | e :: es => by
    have ih := lookupKey_updateVal_isSome k2 k f es
    simp only [updateVal, List.map_cons] at ih ⊢
    simp only [lookupKey]
    have hkey : (if e.1 = k then (e.1, f e.2) else e).1 = e.1 := by
      split <;> rfl
    rw [hkey]
    by_cases h2 : e.1 = k2 <;> simp [h2, ih]

theorem lookupKey_append_single (k2 k : WorkerKey) (v : WorkerShares) (hne : k ≠ k2) :
    ∀ l : List (WorkerKey × WorkerShares),
      lookupKey k2 (l ++ [(k, v)]) = lookupKey k2 l
  | [] => by simp [lookupKey, hne]
  | e :: es => by
    by_cases h : e.1 = k2 <;>
      simp [lookupKey, h, lookupKey_append_single k2 k v hne es]

theorem storePair_not_found (k : WorkerKey) (v : WorkerShares)
    (l : List (WorkerKey × WorkerShares)) (h : lookupKey k l = none) :
    storePair k v l = l ++ [(k, v)] := by
  simp [storePair, h]

theorem countP_not_add (p : WorkerKey × WorkerShares → Bool) :
    ∀ l : List (WorkerKey × WorkerShares),
      l.countP p + l.countP (fun e => !(p e)) = l.length
  | [] => rfl
  | e :: es => by
    by_cases h : p e <;> simp [List.countP_cons, h, List.length_cons] <;>
      · rw [← countP_not_add p es]
        omega

theorem countP_split (p q : WorkerKey × WorkerShares → Bool) :
    ∀ l : List (WorkerKey × WorkerShares),
      l.countP p = l.countP (fun e => p e && q e) + l.countP (fun e => p e && !(q e))
  | [] => rfl
  | e :: es => by
    by_cases hp : p e <;> by_cases hq : q e <;>
      simp [List.countP_cons, hp, hq, countP_split p q es] <;> omega

theorem length_updateVal (k : WorkerKey) (f : WorkerShares → WorkerShares)
    (l : List (WorkerKey × WorkerShares)) : (updateVal k f l).length = l.length := by
  simp [updateVal]

/-- One `processShare` call on a share with a genuine worker id preserves
the counter sum: each missing key adds exactly one map entry and bumps
exactly one of the two counters. -/
theorem sumInv_processShare (now : Nat) (sh : Share) (st : StatsServerState)
    (hwid : sh.workerHashId ≠ 0)
    (h : st.totalWorkerCount + st.totalUserCount = (st.workerSet.length : Int)) :
    (StatsServer.processShare now sh st).totalWorkerCount
      + (StatsServer.processShare now sh st).totalUserCount
      = ((StatsServer.processShare now sh st).workerSet.length : Int) := by
  unfold StatsServer.processShare
  by_cases hgate : sh.timestamp + STATS_SLIDING_WINDOW_SECONDS < now
  · rw [if_pos hgate]
    exact h
  · rw [if_neg hgate]
    simp only [StatsServer.processShareAux]
    have hkey : ((sh.userId, 0) : WorkerKey) ≠ ((sh.userId, sh.workerHashId) : WorkerKey) := by
      intro hC
      exact hwid (Prod.ext_iff.mp hC).2.symm
    by_cases h1 : (lookupKey (sh.userId, sh.workerHashId) st.workerSet).isSome <;>
      by_cases h2 : (lookupKey (sh.userId, 0) st.workerSet).isSome
    · -- both keys present: only in-place updates
      simp [h1, h2, length_updateVal]
      omega
    · -- worker key present, user-total key missing
      have h2n : lookupKey (sh.userId, 0)
          (updateVal (sh.userId, sh.workerHashId)
            (WorkerShares.processShare now sh) st.workerSet) = none := by
        rw [← Option.not_isSome_iff_eq_none]
        rw [Bool.not_eq_true, lookupKey_updateVal_isSome]
        exact Bool.not_eq_true _ ▸ (by simpa using h2)
      simp [h1, h2, storePair_not_found _ _ _ h2n, List.length_append, length_updateVal]
      omega
    · -- worker key missing, user-total key present
      have h1n : lookupKey (sh.userId, sh.workerHashId)
          (updateVal (sh.userId, 0)
            (WorkerShares.processShare now sh) st.workerSet) = none := by
        rw [← Option.not_isSome_iff_eq_none]
        rw [Bool.not_eq_true, lookupKey_updateVal_isSome]
        exact Bool.not_eq_true _ ▸ (by simpa using h1)
      simp [h1, h2, storePair_not_found _ _ _ h1n, List.length_append, length_updateVal]
      omega
    · -- both keys missing: two fresh entries are appended
      have h1n : lookupKey (sh.userId, sh.workerHashId) st.workerSet = none := by
        rw [← Option.not_isSome_iff_eq_none]
        simpa using h1
      have h2n : lookupKey (sh.userId, 0)
          (st.workerSet ++ [((sh.userId, sh.workerHashId),
            WorkerShares.processShare now sh
              (WorkerShares.mkShares sh.workerHashId sh.userId))]) = none := by
        rw [lookupKey_append_single _ _ _ hkey.symm]
        rw [← Option.not_isSome_iff_eq_none]
        simpa using h2
      simp [h1, h2, storePair_not_found _ _ _ h1n, storePair_not_found _ _ _ h2n,
        List.length_append]
      omega

/-- One sweep preserves the counter sum: each removed entry is dropped from
the map and decrements exactly one of the two counters — whichever branch
the (int32-truncated) `workerId == 0` test selects. -/
theorem sumInv_sweep (now : Nat) (st : StatsServerState)
    (h : st.totalWorkerCount + st.totalUserCount = (st.workerSet.length : Int)) :
    (StatsServer.removeExpiredWorkers now st).totalWorkerCount
      + (StatsServer.removeExpiredWorkers now st).totalUserCount
      = ((StatsServer.removeExpiredWorkers now st).workerSet.length : Int) := by
  have hws : (StatsServer.removeExpiredWorkers now st).workerSet
      = st.workerSet.filter (fun e => !(e.2.isExpired now)) := by
    unfold StatsServer.removeExpiredWorkers
    rw [sweepGo_workerSet]
    simp
  have h1 : (StatsServer.removeExpiredWorkers now st).totalUserCount
      = st.totalUserCount
        - (st.workerSet.countP (fun e => e.2.isExpired now && (toInt32 e.1.2 == 0)) : Int) := by
    unfold StatsServer.removeExpiredWorkers
    rw [sweepGo_totalUserCount]
  have h2 : (StatsServer.removeExpiredWorkers now st).totalWorkerCount
      = st.totalWorkerCount
        - (st.workerSet.countP (fun e => e.2.isExpired now && !(toInt32 e.1.2 == 0)) : Int) := by
    unfold StatsServer.removeExpiredWorkers
    rw [sweepGo_totalWorkerCount]
  have h3 := countP_split (fun e => e.2.isExpired now) (fun e => toInt32 e.1.2 == 0) st.workerSet
  have h4 := countP_not_add (fun e => e.2.isExpired now) st.workerSet
  have h5 : (st.workerSet.filter (fun e => !(e.2.isExpired now))).length
      = st.workerSet.countP (fun e => !(e.2.isExpired now)) := by
    rw [List.countP_eq_length_filter]
  rw [h1, h2, hws, h5]
  omega

/-- Counterexample to claim C1 as stated: processing a single share whose
`workerHashId` is `0` (the reserved user-total id) makes `key1 = key2`, so
only ONE map entry is created while BOTH counters are incremented; the
reachable state has `totalWorkerCount_ + totalUserCount_ = 2` but a single
`workerSet_` entry. -/
theorem counter_symmetry_cex :
    Reachable (StatsServer.processShare 1000 ⟨1000, 1, 0, 7, 2, .ACCEPT⟩ initState) ∧
    ¬ ((StatsServer.processShare 1000 ⟨1000, 1, 0, 7, 2, .ACCEPT⟩ initState).totalWorkerCount
        + (StatsServer.processShare 1000 ⟨1000, 1, 0, 7, 2, .ACCEPT⟩ initState).totalUserCount
      = ((StatsServer.processShare 1000 ⟨1000, 1, 0, 7, 2, .ACCEPT⟩
          initState).workerSet.length : Int)) :=
  ⟨Reachable.share 1000 ⟨1000, 1, 0, 7, 2, .ACCEPT⟩ initState Reachable.init, by decide⟩

/-- Claim C1 (amended): in every registry state reachable from the empty
registry by `processShare` calls on shares with a genuine worker id
(`workerHashId ≠ 0`) and `removeExpiredWorkers` calls,
`totalWorkerCount_ + totalUserCount_` equals the number of entries of
`workerSet_`.  (A share with `workerHashId = 0` — a reserved id that never
occurs in valid shares — breaks the equality, see the counterexample.) -/
theorem counter_symmetry_valid (st : StatsServerState) (h : ReachableV st) :
    st.totalWorkerCount + st.totalUserCount = (st.workerSet.length : Int) := by
  induction h with
  | init => decide
  | share now sh st hwid _ ih => exact sumInv_processShare now sh st hwid ih
  | sweep now st _ ih => exact sumInv_sweep now st ih

/-- Witness for amended C1 on the state reached by one valid share. -/
theorem counter_symmetry_valid_witness :
    (StatsServer.processShare 1000 ⟨1000, 1, 5, 7, 2, .ACCEPT⟩ initState).totalWorkerCount
        + (StatsServer.processShare 1000 ⟨1000, 1, 5, 7, 2, .ACCEPT⟩ initState).totalUserCount
      = ((StatsServer.processShare 1000 ⟨1000, 1, 5, 7, 2, .ACCEPT⟩
          initState).workerSet.length : Int) :=
  counter_symmetry_valid _
    (ReachableV.share 1000 ⟨1000, 1, 5, 7, 2, .ACCEPT⟩ initState (by decide) ReachableV.init)

/-- Claim C2: a stale share (`timestamp + 900 < now`) leaves the whole
server state unchanged: `poolWorker_`, `workerSet_`, `userWorkerCount_`,
`totalWorkerCount_` and `totalUserCount_` keep their values. -/
theorem freshness_gate_unchanged (now : Nat) (sh : Share) (st : StatsServerState)
    (h : sh.timestamp + 900 < now) :
    (StatsServer.processShare now sh st).poolWorker = st.poolWorker ∧
    (StatsServer.processShare now sh st).workerSet = st.workerSet ∧
    (StatsServer.processShare now sh st).userWorkerCount = st.userWorkerCount ∧
    (StatsServer.processShare now sh st).totalWorkerCount = st.totalWorkerCount ∧
    (StatsServer.processShare now sh st).totalUserCount = st.totalUserCount := by
  have hgate : sh.timestamp + STATS_SLIDING_WINDOW_SECONDS < now := h
  unfold StatsServer.processShare
  rw [if_pos hgate]
  exact ⟨rfl, rfl, rfl, rfl, rfl⟩

/-- Witness for C2 at a concrete stale share and the fresh server state. -/
theorem freshness_gate_unchanged_witness :
    (⟨0, 1, 2, 3, 4, .ACCEPT⟩ : Share).timestamp + 900 < 1000 ∧
    ((StatsServer.processShare 1000 ⟨0, 1, 2, 3, 4, .ACCEPT⟩ initState).poolWorker
        = initState.poolWorker ∧
      (StatsServer.processShare 1000 ⟨0, 1, 2, 3, 4, .ACCEPT⟩ initState).workerSet
        = initState.workerSet ∧
      (StatsServer.processShare 1000 ⟨0, 1, 2, 3, 4, .ACCEPT⟩ initState).userWorkerCount
        = initState.userWorkerCount ∧
      (StatsServer.processShare 1000 ⟨0, 1, 2, 3, 4, .ACCEPT⟩ initState).totalWorkerCount
        = initState.totalWorkerCount ∧
      (StatsServer.processShare 1000 ⟨0, 1, 2, 3, 4, .ACCEPT⟩ initState).totalUserCount
        = initState.totalUserCount) :=
  ⟨by decide, freshness_gate_unchanged 1000 ⟨0, 1, 2, 3, 4, .ACCEPT⟩ initState (by decide)⟩

/-- Claim C6: the snapshot returned by `WorkerShares::getWorkerStatus` has
`accept1m/5m/15m = acceptShareSec.sum(now, 60/300/900)`,
`reject15m = rejectShareMin.sum(now/60, 15)` and copies `acceptCount`,
`lastShareIP` and `lastShareTime` unchanged. -/
theorem getWorkerStatus_fields (now : Nat) (w : WorkerShares) :
    (w.getWorkerStatus now).accept1m = w.acceptShareSec.sum (now : Int) 60 ∧
    (w.getWorkerStatus now).accept5m = w.acceptShareSec.sum (now : Int) 300 ∧
    (w.getWorkerStatus now).accept15m = w.acceptShareSec.sum (now : Int) 900 ∧
    (w.getWorkerStatus now).reject15m = w.rejectShareMin.sum ((now / 60 : Nat) : Int) 15 ∧
    (w.getWorkerStatus now).acceptCount = w.acceptCount ∧
    (w.getWorkerStatus now).lastShareIP = w.lastShareIP ∧
    (w.getWorkerStatus now).lastShareTime = w.lastShareTime :=
  ⟨rfl, rfl, rfl, rfl, rfl, rfl, rfl⟩

/-- Counterexample to claim C8 as stated: a stale share (here
`timestamp = 0` processed at `now = 1000`) is dropped by the freshness gate
of `WorkerShares::processShare`, so `lastShareIP` and `lastShareTime` are
NOT updated to the share's values. -/
theorem processShare_metadata_cex :
    (WorkerShares.processShare 1000 ⟨0, 1, 2, 7, 3, .ACCEPT⟩
        { WorkerShares.mkShares 1 1 with lastShareIP := 1, lastShareTime := 5 }).lastShareIP ≠ 7 ∧
    (WorkerShares.processShare 1000 ⟨0, 1, 2, 7, 3, .ACCEPT⟩
        { WorkerShares.mkShares 1 1 with lastShareIP := 1, lastShareTime := 5 }).lastShareTime ≠ 0 :=
  ⟨by decide, by decide⟩

/-- Claim C8 (amended): for every share that passes the freshness gate
(`now ≤ timestamp + 900`), `WorkerShares::processShare` updates
`lastShareIP` to the share's IP and `lastShareTime` to its timestamp, for
accepted and rejected shares alike. -/
theorem processShare_metadata_fresh (now : Nat) (sh : Share) (w : WorkerShares)
    (h : now ≤ sh.timestamp + 900) :
    (WorkerShares.processShare now sh w).lastShareIP = sh.ip ∧
    (WorkerShares.processShare now sh w).lastShareTime = sh.timestamp := by
  rcases sh with ⟨ts, uid, wid, ip, sv, res⟩
  have h2 : now ≤ ts + 900 := h
  have hgate : ¬ (ts + STATS_SLIDING_WINDOW_SECONDS < now) := by
    simp only [STATS_SLIDING_WINDOW_SECONDS]
    omega
  unfold WorkerShares.processShare
  rw [if_neg hgate]
  cases res <;> exact ⟨rfl, rfl⟩

/-- Witness for amended C8: an accepted and a rejected fresh share both
update the metadata. -/
theorem processShare_metadata_fresh_witness :
    ((1000 : Nat) ≤ (950 : Nat) + 900 ∧
      (WorkerShares.processShare 1000 ⟨950, 1, 2, 7, 3, .ACCEPT⟩
          (WorkerShares.mkShares 2 1)).lastShareIP = 7 ∧
      (WorkerShares.processShare 1000 ⟨950, 1, 2, 7, 3, .ACCEPT⟩
          (WorkerShares.mkShares 2 1)).lastShareTime = 950) ∧
    ((WorkerShares.processShare 1000 ⟨950, 1, 2, 8, 3, .REJECT⟩
          (WorkerShares.mkShares 2 1)).lastShareIP = 8 ∧
      (WorkerShares.processShare 1000 ⟨950, 1, 2, 8, 3, .REJECT⟩
          (WorkerShares.mkShares 2 1)).lastShareTime = 950) :=
  ⟨⟨by decide,
    processShare_metadata_fresh 1000 ⟨950, 1, 2, 7, 3, .ACCEPT⟩ (WorkerShares.mkShares 2 1)
      (by decide)⟩,
   processShare_metadata_fresh 1000 ⟨950, 1, 2, 8, 3, .REJECT⟩ (WorkerShares.mkShares 2 1)
      (by decide)⟩

/-! ### The `/worker_status` handler (claims C9 and C10) -/

theorem zip_map_left {α β : Type _} (g : α → β) :
    ∀ l : List α, (l.map g).zip l = l.map (fun a => (g a, a))
  | [] => rfl
  | a :: as => by simp [zip_map_left g as]

/-- Claim C9: on a `/worker_status` request missing `user_id` or
`worker_id`, the handler responds with exactly the JSON body
`\x7b"error_no":1,"error_msg":"invalid args"\x7d` under HTTP status 200, and
the registry and every counter other than `requestCount_` (which is bumped
by one) are unchanged — in particular no worker lookup happens and not even
`responseBytes_` is accounted. -/
theorem httpd_invalid_args_spec (now : Nat) (st : StatsServerState)
    (pUserId pWorkerId pIsMerge : Option String)
    (h : pUserId = none ∨ pWorkerId = none) :
    (StatsServer.httpdGetWorkerStatus now st pUserId pWorkerId pIsMerge).2.1
      = WSResponse.invalidArgs ∧
    renderResponse (StatsServer.httpdGetWorkerStatus now st pUserId pWorkerId pIsMerge).2.1
      = "\x7b\"error_no\":1,\"error_msg\":\"invalid args\"\x7d" ∧
    (StatsServer.httpdGetWorkerStatus now st pUserId pWorkerId pIsMerge).2.2 = 200 ∧
    (StatsServer.httpdGetWorkerStatus now st pUserId pWorkerId pIsMerge).1.workerSet
      = st.workerSet ∧
    (StatsServer.httpdGetWorkerStatus now st pUserId pWorkerId pIsMerge).1.poolWorker
      = st.poolWorker ∧
    (StatsServer.httpdGetWorkerStatus now st pUserId pWorkerId pIsMerge).1.userWorkerCount
      = st.userWorkerCount ∧
    (StatsServer.httpdGetWorkerStatus now st pUserId pWorkerId pIsMerge).1.totalWorkerCount
      = st.totalWorkerCount ∧
    (StatsServer.httpdGetWorkerStatus now st pUserId pWorkerId pIsMerge).1.totalUserCount
      = st.totalUserCount ∧
    (StatsServer.httpdGetWorkerStatus now st pUserId pWorkerId pIsMerge).1.responseBytes
      = st.responseBytes ∧
    (StatsServer.httpdGetWorkerStatus now st pUserId pWorkerId pIsMerge).1.requestCount
      = st.requestCount + 1 := by
  rcases h with h | h
  · subst h
    cases pWorkerId <;>
      simp [StatsServer.httpdGetWorkerStatus, renderResponse]
  · subst h
    cases pUserId <;>
      simp [StatsServer.httpdGetWorkerStatus, renderResponse]

/-- Witness for C9 at a concrete request with a missing `user_id`. -/
theorem httpd_invalid_args_spec_witness :
    ((none : Option String) = none ∨ (some "5" : Option String) = none) ∧
    ((StatsServer.httpdGetWorkerStatus 0 initState none (some "5") none).2.1
        = WSResponse.invalidArgs ∧
      renderResponse (StatsServer.httpdGetWorkerStatus 0 initState none (some "5") none).2.1
        = "\x7b\"error_no\":1,\"error_msg\":\"invalid args\"\x7d" ∧
      (StatsServer.httpdGetWorkerStatus 0 initState none (some "5") none).2.2 = 200 ∧
      (StatsServer.httpdGetWorkerStatus 0 initState none (some "5") none).1.workerSet
        = initState.workerSet ∧
      (StatsServer.httpdGetWorkerStatus 0 initState none (some "5") none).1.poolWorker
        = initState.poolWorker ∧
      (StatsServer.httpdGetWorkerStatus 0 initState none (some "5") none).1.userWorkerCount
        = initState.userWorkerCount ∧
      (StatsServer.httpdGetWorkerStatus 0 initState none (some "5") none).1.totalWorkerCount
        = initState.totalWorkerCount ∧
      (StatsServer.httpdGetWorkerStatus 0 initState none (some "5") none).1.totalUserCount
        = initState.totalUserCount ∧
      (StatsServer.httpdGetWorkerStatus 0 initState none (some "5") none).1.responseBytes
        = initState.responseBytes ∧
      (StatsServer.httpdGetWorkerStatus 0 initState none (some "5") none).1.requestCount
        = initState.requestCount + 1) :=
  ⟨Or.inl rfl, httpd_invalid_args_spec 0 initState none (some "5") none (Or.inl rfl)⟩

/-- Claim C10: a `worker_id` list token on which `strtoll` yields `0`
(e.g. an empty or alphabetic token) resolves to the user-total pseudo-worker
key `(userId, 0)`; the corresponding row is the user-total row — carrying
the `"workers"` extra field since the query is not merged — and the handler
answers the success shape, not the argument error. -/
theorem worker_id_unparsed_user_total (now : Nat) (st : StatsServerState)
    (u w : String) (pim : Option String) (i : Nat) (tok : String)
    (htok : (splitComma w)[i]? = some tok)
    (h0 : strtoll tok = 0)
    (hm : isMergeOf pim = false) :
    (workerKeysOf (atoi u) w)[i]? = some (atoi u, 0) ∧
    (StatsServer.getWorkerStatusRows now st u w pim)[i]? = some
      { workerId := 0
        status :=
          match lookupKey (atoi u, 0) st.workerSet with
          | some x => x.getWorkerStatus now
          | none => {}
        workersField := some (st.userWorkerCount (atoi u)) } ∧
    (StatsServer.httpdGetWorkerStatus now st (some u) (some w) pim).2.1
      ≠ WSResponse.invalidArgs := by
  have hkeys : (workerKeysOf (atoi u) w)[i]? = some (atoi u, 0) := by
    unfold workerKeysOf
    rw [List.getElem?_map, htok]
    simp [h0]
  refine ⟨hkeys, ?_, ?_⟩
  · unfold StatsServer.getWorkerStatusRows StatsServer.getWorkerStatusBatch
    rw [hm]
    simp only [Bool.false_eq_true, if_false, zip_map_left, List.map_map]
    rw [List.getElem?_map, hkeys]
    simp
  · unfold StatsServer.httpdGetWorkerStatus
    simp

/-- Witness for C10: the token `"abc"` is not a decimal number, `strtoll`
yields `0` on it, and the query resolves it to the user-total row. -/
theorem worker_id_unparsed_user_total_witness :
    (splitComma "abc")[0]? = some "abc" ∧
    strtoll "abc" = 0 ∧
    isMergeOf none = false ∧
    ((workerKeysOf (atoi "1") "abc")[0]? = some (atoi "1", 0) ∧
      (StatsServer.getWorkerStatusRows 0 initState "1" "abc" none)[0]? = some
        { workerId := 0
          status :=
            match lookupKey (atoi "1", 0) initState.workerSet with
            | some x => x.getWorkerStatus 0
            | none => {}
          workersField := some (initState.userWorkerCount (atoi "1")) } ∧
      (StatsServer.httpdGetWorkerStatus 0 initState (some "1") (some "abc") none).2.1
        ≠ WSResponse.invalidArgs) :=
  ⟨rfl, rfl, rfl,
   worker_id_unparsed_user_total 0 initState "1" "abc" none 0 "abc" rfl rfl rfl⟩

end BtcPool
